import Mathlib

/-!
Verification development for the FoodPlanner meal-scheduling engine
(`generate_schedule` in `src/app.py`).

The solver is embedded shallowly:

* Python dict records for meals become the `MealItem` structure
  (`ingredients` defaults to `[]` when the field is missing, mirroring
  the dict lookup with a default; `protein` is the tier string).
* The `meal_db` dict keyed by the four category names becomes the
  `MealDB` structure; a missing key behaves as an empty list.
* Python's global `random` state is modelled by an explicit stream of
  natural numbers (`RSrc`); `random.shuffle` is the Fisher-Yates loop
  (`for i in reversed(range(1, len(x))): j = randbelow(i+1); swap`)
  driven by that stream, and `random.choice` draws one index.  Each
  consumed stream value `n` is reduced modulo the required bound, so
  every concrete behaviour of the Python program corresponds to some
  stream.
* Python sets of ingredient tokens are modelled as lists used only
  through membership (`memS`), disjointness (`disjointL`) and union
  (append), which is observationally faithful.
* `random.shuffle(options)` mutates the list held by the catalog dict,
  so the embedding threads the (possibly reordered) `MealDB` through
  every step and returns it alongside the schedule.
-/

namespace FoodPlanner

/-- One enriched meal record: `name`, `ingredients` (lowercase tokens),
`protein` tier string (`"High"`, `"Medium"`, `"Low"`). -/
structure MealItem where
  name : String
  ingredients : List String
  protein : String
deriving DecidableEq

/-- The four meal categories, in the fixed order the solver iterates. -/
inductive Cat where
  | Breakfast
  | Lunch
  | Snack
  | Dinner
deriving DecidableEq

/-- The catalog `meal_db`: one ordered item list per category.  A
category missing from the Python dict behaves exactly like an empty
list (`meal_db.get(cat, [])`). -/
structure MealDB where
  breakfast : List MealItem
  lunch : List MealItem
  snack : List MealItem
  dinner : List MealItem
deriving DecidableEq

/-- Read one category list of the catalog. -/
def getCat (db : MealDB) : Cat → List MealItem
  | Cat.Breakfast => db.breakfast
  | Cat.Lunch => db.lunch
  | Cat.Snack => db.snack
  | Cat.Dinner => db.dinner

/-- Write one category list of the catalog (models the in-place
mutation performed by `random.shuffle(options)`). -/
def setCat (db : MealDB) : Cat → List MealItem → MealDB
  | Cat.Breakfast, l => { db with breakfast := l }
  | Cat.Lunch, l => { db with lunch := l }
  | Cat.Snack, l => { db with snack := l }
  | Cat.Dinner, l => { db with dinner := l }

/-- Explicit random source: a stream of naturals (0 once exhausted). -/
structure RSrc where
  seq : List Nat
deriving DecidableEq

/-- Draw the next raw value from the random source. -/
def rnext (r : RSrc) : Nat × RSrc :=
  (r.seq.headD 0, ⟨r.seq.tail⟩)

/-- Swap the elements at positions `i` and `j` (no-op when either index
is out of range), the primitive step of Fisher-Yates. -/
def swapL {α : Type} (l : List α) (i j : Nat) : List α :=
  match l.get? i, l.get? j with
  | some a, some b => (l.set i b).set j a
  | _, _ => l

/-- Fisher-Yates loop of `random.shuffle`: for `i` from `len-1` down to
`1`, swap position `i` with position `j = n % (i+1)` where `n` is drawn
from the stream.  The recursion argument is the current `i`. -/
def shuffleGo {α : Type} : Nat → List α → RSrc → List α × RSrc
  | 0, l, r => (l, r)
  | i + 1, l, r =>
    let p := rnext r
    shuffleGo i (swapL l (i + 1) (p.1 % (i + 2))) p.2

/-- Model of random.shuffle: permute the whole list in place. -/
def shuffle {α : Type} (l : List α) (r : RSrc) : List α × RSrc :=
  shuffleGo (l.length - 1) l r

/-- Model of random.choice(options): pick one element at a random index
(`none` on an empty list; the caller guards with `and options`). -/
def choiceR (opts : List MealItem) (r : RSrc) : Option MealItem × RSrc :=
  if opts.isEmpty then (none, r)
  else
    let p := rnext r
    (opts.get? (p.1 % opts.length), p.2)

/-- Boolean membership of a token in a token list (Python `in`). -/
def memS : String → List String → Bool
  | _, [] => false
  | x, y :: ys => (y == x) || memS x ys

/-- Boolean disjointness of two token lists (Python `isdisjoint`). -/
def disjointL : List String → List String → Bool
  | [], _ => true
  | x :: xs, ys => !(memS x ys) && disjointL xs ys

/-- The hardcoded `STAPLES` set of `generate_schedule`. -/
def STAPLES : List String :=
  ["rice", "roti", "chapati", "curd", "yogurt", "bread", "ghee", "coffee", "tea"]

/-- Critical ingredients of an item: its ingredient set minus the
staple set. -/
def critical (staples : List String) (it : MealItem) : List String :=
  it.ingredients.filter (fun x => !(memS x staples))

/-- The `protein_map` lookup with default 1:
`{"High": 3, "Medium": 2, "Low": 1}.get(p, 1)`. -/
def proteinMap (p : String) : Nat :=
  if p == "High" then 3 else if p == "Medium" then 2 else 1

/-- Whether the deck scan accepts a candidate: Rule 1 (critical
ingredients disjoint from today's accumulated set) and Rule 2 (on a
collision with the previous day's set, only non-`High` items pass). -/
def scanAccept (staples : List String) (opt : MealItem)
    (tempIng hist : List String) : Bool :=
  disjointL (critical staples opt) tempIng &&
    (disjointL (critical staples opt) hist || !(opt.protein == "High"))

/-- The front-to-back scan `for opt in options: ... selected = opt; break`:
first candidate passing both rules, if any. -/
def selectScan (staples : List String) (opts : List MealItem)
    (tempIng hist : List String) : Option MealItem :=
  opts.find? (fun o => scanAccept staples o tempIng hist)

/-- Number of candidates the scan loop examines before stopping (all of
them when none is accepted). -/
def scanSteps (staples : List String) : List MealItem → List String → List String → Nat
  | [], _, _ => 0
  | o :: os, t, h =>
    if scanAccept staples o t h then 1 else 1 + scanSteps staples os t h

/-- Per-attempt accumulator: `temp_menu`, `temp_ing`, `temp_score`. -/
structure AttState where
  menu : List (Cat × MealItem)
  ing : List String
  score : Nat
deriving DecidableEq

/-- One category iteration of the inner `for cat in [...]` loop:
skip an empty category, shuffle the category list in place, scan for a
rule-abiding candidate, fall back to `random.choice`, then record the
selection (menu entry, non-staple ingredients, protein score). -/
def catStep (staples : List String) (db : MealDB) (c : Cat)
    (hist : List String) (st : AttState) (r : RSrc) :
    AttState × MealDB × RSrc :=
  let options := getCat db c
  if options.isEmpty then (st, db, r)
  else
    let sh := shuffle options r
    let opts := sh.1
    let r1 := sh.2
    let db1 := setCat db c opts
    let scanned := selectScan staples opts st.ing hist
    let pick :=
      match scanned with
      | some s => (some s, r1)
      | none => choiceR opts r1
    match pick.1 with
    | none => (st, db1, pick.2)
    | some s =>
      (⟨st.menu ++ [(c, s)],
        st.ing ++ critical staples s,
        st.score + proteinMap s.protein⟩, db1, pick.2)

/-- The fixed category order of one attempt. -/
def catsList : List Cat := [Cat.Breakfast, Cat.Lunch, Cat.Snack, Cat.Dinner]

/-- Fold `catStep` over a category list. -/
def runAttemptGo (staples : List String) (hist : List String) :
    List Cat → MealDB → AttState → RSrc → AttState × MealDB × RSrc
  | [], db, st, r => (st, db, r)
  | c :: cs, db, st, r =>
    let out := catStep staples db c hist st r
    runAttemptGo staples hist cs out.2.1 out.1 out.2.2

/-- One full attempt at building a day (one pass of the `while` body). -/
def runAttempt (staples : List String) (db : MealDB) (hist : List String)
    (r : RSrc) : AttState × MealDB × RSrc :=
  runAttemptGo staples hist catsList db ⟨[], [], 0⟩ r

/-- Result of building one day: the menu, score and ingredient set that
the day records (`daily_menu`, `daily_score`, `daily_ingredients`),
whether some attempt met the acceptance score, how many attempts ran,
and the threaded catalog and random source. -/
structure DayOut where
  menu : List (Cat × MealItem)
  score : Nat
  ings : List String
  accepted : Bool
  tries : Nat
  dbOut : MealDB
  rOut : RSrc
deriving DecidableEq

/-- The `while attempts < 50` loop, recursing on remaining fuel.  An
attempt scoring at least 5 is accepted (and sets `daily_ingredients`);
when the fuel runs out the last attempt is kept as fallback but
`daily_ingredients` keeps its initial empty value. -/
def dayGo (staples : List String) : Nat → MealDB → List String → RSrc → DayOut
  | 0, db, _, r => ⟨[], 0, [], false, 0, db, r⟩
  | n + 1, db, hist, r =>
    let a := runAttempt staples db hist r
    if 5 ≤ a.1.score then
      ⟨a.1.menu, a.1.score, a.1.ing, true, 1, a.2.1, a.2.2⟩
    else
      match n with
      | 0 => ⟨a.1.menu, a.1.score, [], false, 1, a.2.1, a.2.2⟩
      | m + 1 =>
        let o := dayGo staples (m + 1) a.2.1 hist a.2.2
        { o with tries := o.tries + 1 }

/-- Build one day with the program's bound of 50 attempts. -/
def buildDay (staples : List String) (db : MealDB) (hist : List String)
    (r : RSrc) : DayOut :=
  dayGo staples 50 db hist r

/-- One output row of the schedule table. -/
structure Row where
  day : String
  breakfastName : String
  lunchName : String
  snackName : String
  dinnerName : String
  proteinLevel : String
deriving DecidableEq

/-- Displayed name of a category slot: the selected item name when the
menu holds the category, the dash placeholder otherwise, exactly the
chained dict lookups with defaults performed by the row builder. -/
def nameOf (menu : List (Cat × MealItem)) (c : Cat) : String :=
  match menu.find? (fun p => p.1 == c) with
  | some p => p.2.name
  | none => "-"

/-- Read the displayed name of one category slot out of a row. -/
def rowName (row : Row) : Cat → String
  | Cat.Breakfast => row.breakfastName
  | Cat.Lunch => row.lunchName
  | Cat.Snack => row.snackName
  | Cat.Dinner => row.dinnerName

/-- Assemble one `week_plan` row from a day's menu and score. -/
def mkRow (d : String) (menu : List (Cat × MealItem)) (score : Nat) : Row :=
  ⟨d, nameOf menu Cat.Breakfast, nameOf menu Cat.Lunch,
    nameOf menu Cat.Snack, nameOf menu Cat.Dinner,
    if 7 < score then "🔥 High" else "✅ Good"⟩

/-- Trace record of one day: the history set the day was given, the
full day result, and the emitted row. -/
structure DayRec where
  histIn : List String
  dayOut : DayOut
  row : Row
deriving DecidableEq

/-- The fixed day labels. -/
def weekDays : List String := ["Mon", "Tue", "Wed", "Thu", "Fri", "Sat", "Sun"]

/-- The outer `for day in days` loop: build each day, thread the
catalog, the random source and `history_ingredients = daily_ingredients`
forward, and record one `DayRec` per day. -/
def weekGo (staples : List String) :
    List String → MealDB → List String → RSrc → List DayRec × MealDB × RSrc
  | [], db, _, r => ([], db, r)
  | d :: ds, db, hist, r =>
    let o := buildDay staples db hist r
    let rest := weekGo staples ds o.dbOut o.ings o.rOut
    (⟨hist, o, mkRow d o.menu o.score⟩ :: rest.1, rest.2.1, rest.2.2)

/-- One whole planning run with an explicit staple set, starting from
`history_ingredients = set()`. -/
def runWeek (staples : List String) (db : MealDB) (r : RSrc) :
    List DayRec × MealDB × RSrc :=
  weekGo staples weekDays db [] r

/-- The per-day trace of the program's run (with its hardcoded staples). -/
def gsRecs (db : MealDB) (r : RSrc) : List DayRec :=
  (runWeek STAPLES db r).1

/-- The value `generate_schedule` returns: the seven table rows. -/
def generate_schedule (db : MealDB) (r : RSrc) : List Row :=
  (gsRecs db r).map (fun dr => dr.row)

/-- Sum of the mapped protein scores of a menu's items. -/
def menuScore (menu : List (Cat × MealItem)) : Nat :=
  (menu.map (fun p => proteinMap p.2.protein)).sum

/-- All catalog items, across the four categories. -/
def allItems (db : MealDB) : List MealItem :=
  db.breakfast ++ db.lunch ++ db.snack ++ db.dinner

/-- Placeholder row used as an out-of-range default. -/
def rowD : Row := ⟨"-", "-", "-", "-", "-", "-"⟩

/-- Placeholder day record used as an out-of-range default. -/
def dayRec0 : DayRec :=
  ⟨[], ⟨[], 0, [], false, 0, ⟨[], [], [], []⟩, ⟨[]⟩⟩, rowD⟩

/-- Projection of the catalog state a run leaves behind. -/
def finalDb (staples : List String) (db : MealDB) (r : RSrc) : MealDB :=
  (runWeek staples db r).2.1

/-- The all-zero random source (an exhausted stream yields 0 forever). -/
def rZ : RSrc := ⟨[]⟩

/-- Random source drawing 1 twice, then 0 forever. -/
def rS : RSrc := ⟨[1, 1]⟩

/-- Concrete item: medium-protein breakfast built on paneer. -/
def itA : MealItem := ⟨"A", ["paneer"], "Medium"⟩

/-- Concrete item: medium-protein lunch colliding with `itA` on paneer. -/
def itC : MealItem := ⟨"C", ["paneer", "dal"], "Medium"⟩

/-- Catalog whose only lunch option collides with its only breakfast
option; every attempt scores 4, so every day falls back. -/
def db2 : MealDB := ⟨[itA], [itC], [], []⟩

/-- Concrete medium-protein breakfast item on almond. -/
def itA2 : MealItem := ⟨"A2", ["almond"], "Medium"⟩

/-- Concrete medium-protein breakfast item on beet. -/
def itB2 : MealItem := ⟨"B2", ["beet"], "Medium"⟩

/-- Concrete medium-protein lunch item on corn. -/
def itC2 : MealItem := ⟨"C2", ["corn"], "Medium"⟩

/-- Concrete medium-protein snack item on date. -/
def itD2 : MealItem := ⟨"D2", ["date"], "Medium"⟩

/-- Catalog with a two-item breakfast category and no ingredient
collisions among distinct items. -/
def db4 : MealDB := ⟨[itA2, itB2], [itC2], [itD2], []⟩

/-- Concrete low-protein breakfast item. -/
def itLow : MealItem := ⟨"L1", ["lentil"], "Low"⟩

/-- Concrete high-protein lunch item. -/
def itHighL : MealItem := ⟨"H1", ["okra"], "High"⟩

/-- Concrete high-protein snack item. -/
def itHighS : MealItem := ⟨"H2", ["pea"], "High"⟩

/-- Catalog whose first day scores 1+3+3 = 7 and is accepted at once. -/
def db3 : MealDB := ⟨[itLow], [itHighL], [itHighS], []⟩

/-- Concrete high-protein breakfast item on apple. -/
def itAH : MealItem := ⟨"AH", ["apple"], "High"⟩

/-- Concrete high-protein breakfast item on bean. -/
def itBH : MealItem := ⟨"BH", ["bean"], "High"⟩

/-- Concrete high-protein lunch item on corn. -/
def itCH : MealItem := ⟨"CH", ["corn"], "High"⟩

/-- Catalog used to exhibit the in-place reordering of the catalog. -/
def db5 : MealDB := ⟨[itAH, itBH], [itCH], [], []⟩

/-- Concrete high-protein breakfast item on paneer. -/
def itAhp : MealItem := ⟨"A", ["paneer"], "High"⟩

/-- Concrete high-protein lunch item colliding with `itAhp` on paneer. -/
def itChp : MealItem := ⟨"C", ["paneer", "dal"], "High"⟩

/-- Catalog whose only lunch option collides with its only breakfast
option; the 3+3 score is accepted on the first attempt of each day. -/
def db6 : MealDB := ⟨[itAhp], [itChp], [], []⟩

/-! ## Basic membership and disjointness lemmas -/

theorem memS_iff (x : String) : ∀ l : List String, memS x l = true ↔ x ∈ l := by
  intro l
  induction l with
  | nil => simp [memS]
  | cons y ys ih =>
    simp [memS, ih, Bool.or_eq_true, beq_iff_eq]
    constructor
    · rintro (h | h)
      · exact Or.inl h.symm
      · exact Or.inr h
    · rintro (h | h)
      · exact Or.inl h.symm
      · exact Or.inr h

theorem disjointL_nil_right : ∀ l : List String, disjointL l [] = true := by
  intro l
  induction l with
  | nil => rfl
  | cons x xs ih => simp [disjointL, memS, ih]

theorem mem_critical {S : List String} {it : MealItem} {x : String}
    (h : x ∈ critical S it) : x ∉ S := by
  have hx := (List.mem_filter.mp h).2
  intro hmem
  have : memS x S = true := (memS_iff x S).mpr hmem
  rw [this] at hx
  simp at hx

theorem mem_critical_ingredients {S : List String} {it : MealItem} {x : String}
    (h : x ∈ critical S it) : x ∈ it.ingredients :=
  (List.mem_filter.mp h).1

/-! ## Permutation facts about swapping and shuffling -/

theorem cons_set_perm {α : Type} :
    ∀ (xs : List α) (m : Nat) (b x : α), xs.get? m = some b →
      List.Perm (b :: xs.set m x) (x :: xs)
  | [], m, _, _, h => by cases m <;> simp at h
  | y :: t, 0, b, x, h => by
    have hb : y = b := Option.some.inj h
    subst hb
    simpa [List.set] using List.Perm.swap x y t
  | y :: t, m + 1, b, x, h => by
    have h2 : t.get? m = some b := h
    have ih := cons_set_perm t m b x h2
    have s1 : List.Perm (b :: y :: t.set m x) (y :: b :: t.set m x) :=
      List.Perm.swap y b (t.set m x)
    have s2 : List.Perm (y :: b :: t.set m x) (y :: x :: t) := ih.cons y
    have s3 : List.Perm (y :: x :: t) (x :: y :: t) := List.Perm.swap x y t
    simpa [List.set] using (s1.trans s2).trans s3

theorem set_set_perm {α : Type} :
    ∀ (l : List α) (i j : Nat) (a b : α), l.get? i = some a → l.get? j = some b →
      List.Perm ((l.set i b).set j a) l
  | [], i, _, _, _, hi, _ => by cases i <;> simp at hi
  | x :: xs, 0, 0, a, b, hi, hj => by
    have ha : x = a := Option.some.inj hi
    have hb : x = b := Option.some.inj hj
    subst ha
    subst hb
    simp [List.set]
  | x :: xs, 0, m + 1, a, b, hi, hj => by
    have ha : x = a := Option.some.inj hi
    have hj2 : xs.get? m = some b := hj
    subst ha
    simpa [List.set] using cons_set_perm xs m b x hj2
  | x :: xs, n + 1, 0, a, b, hi, hj => by
    have hb : x = b := Option.some.inj hj
    have hi2 : xs.get? n = some a := hi
    subst hb
    simpa [List.set] using cons_set_perm xs n a x hi2
  | x :: xs, n + 1, m + 1, a, b, hi, hj => by
    have hi2 : xs.get? n = some a := hi
    have hj2 : xs.get? m = some b := hj
    simpa [List.set] using (set_set_perm xs n m a b hi2 hj2).cons x

theorem swapL_perm {α : Type} (l : List α) (i j : Nat) :
    List.Perm (swapL l i j) l := by
  unfold swapL
  split
  · next a b hi hj => exact set_set_perm l i j a b hi hj
  · exact List.Perm.refl l

theorem shuffleGo_perm {α : Type} :
    ∀ (n : Nat) (l : List α) (r : RSrc), List.Perm (shuffleGo n l r).1 l
  | 0, l, _ => List.Perm.refl l
  | n + 1, l, r => by
    have ih := shuffleGo_perm n (swapL l (n + 1) ((rnext r).1 % (n + 2))) (rnext r).2
    exact ih.trans (swapL_perm l (n + 1) _)

theorem shuffle_perm {α : Type} (l : List α) (r : RSrc) :
    List.Perm (shuffle l r).1 l :=
  shuffleGo_perm (l.length - 1) l r

theorem mem_shuffle {α : Type} {l : List α} {r : RSrc} {a : α}
    (h : a ∈ (shuffle l r).1) : a ∈ l :=
  (shuffle_perm l r).mem_iff.mp h

/-! ## Reading and writing catalog categories -/

theorem getCat_setCat (db : MealDB) (c c2 : Cat) (l : List MealItem) :
    getCat (setCat db c l) c2 = if c2 = c then l else getCat db c2 := by
  cases c <;> cases c2 <;> simp [getCat, setCat]

theorem choiceR_mem {opts : List MealItem} {r : RSrc} {s : MealItem}
    (h : (choiceR opts r).1 = some s) : s ∈ opts := by
  unfold choiceR at h
  split at h
  · simp at h
  · exact List.get?_mem h

/-! ## Characterization of one category step

`catStep` either skips an empty category, or replaces the category list
by a permutation of itself and (possibly) appends one selected item
drawn from that permutation. -/

theorem catStep_char (S : List String) (db : MealDB) (c : Cat)
    (hist : List String) (st : AttState) (r : RSrc) :
    catStep S db c hist st r = (st, db, r)
    ∨ ∃ opts r2, List.Perm opts (getCat db c) ∧
        (catStep S db c hist st r = (st, setCat db c opts, r2)
         ∨ ∃ s, s ∈ opts ∧
             catStep S db c hist st r =
               (⟨st.menu ++ [(c, s)], st.ing ++ critical S s,
                 st.score + proteinMap s.protein⟩, setCat db c opts, r2)) := by
  unfold catStep
  dsimp only
  split
  · exact Or.inl rfl
  · cases hscan : selectScan S (shuffle (getCat db c) r).1 st.ing hist with
    | some s =>
      dsimp only
      exact Or.inr ⟨(shuffle (getCat db c) r).1, (shuffle (getCat db c) r).2,
        shuffle_perm _ _, Or.inr ⟨s, List.mem_of_find?_eq_some hscan, rfl⟩⟩
    | none =>
      dsimp only
      cases hch : (choiceR (shuffle (getCat db c) r).1 (shuffle (getCat db c) r).2).1 with
      | none =>
        dsimp only
        exact Or.inr ⟨(shuffle (getCat db c) r).1,
          (choiceR (shuffle (getCat db c) r).1 (shuffle (getCat db c) r).2).2,
          shuffle_perm _ _, Or.inl rfl⟩
      | some s =>
        dsimp only
        exact Or.inr ⟨(shuffle (getCat db c) r).1,
          (choiceR (shuffle (getCat db c) r).1 (shuffle (getCat db c) r).2).2,
          shuffle_perm _ _, Or.inr ⟨s, choiceR_mem hch, rfl⟩⟩

/-! ## Catalog evolution: every step permutes category lists in place -/

/-- Two catalogs are related when each category holds a permutation of
the other's items. -/
def DbPerm (db db0 : MealDB) : Prop :=
  ∀ c, List.Perm (getCat db c) (getCat db0 c)

theorem DbPerm.rfl (db : MealDB) : DbPerm db db :=
  fun _ => List.Perm.refl _

theorem DbPerm.trans {da db dc : MealDB} (h1 : DbPerm da db)
    (h2 : DbPerm db dc) : DbPerm da dc :=
  fun c => (h1 c).trans (h2 c)

theorem setCat_dbPerm {db : MealDB} {c : Cat} {opts : List MealItem}
    (h : List.Perm opts (getCat db c)) : DbPerm (setCat db c opts) db := by
  intro c2
  rw [getCat_setCat]
  split
  · next he => subst he; exact h
  · exact List.Perm.refl _

theorem catStep_dbPerm (S : List String) (db : MealDB) (c : Cat)
    (hist : List String) (st : AttState) (r : RSrc) :
    DbPerm (catStep S db c hist st r).2.1 db := by
  rcases catStep_char S db c hist st r with h | ⟨opts, r2, hperm, h | ⟨s, _, h⟩⟩
  · rw [h]; exact DbPerm.rfl db
  · rw [h]; exact setCat_dbPerm hperm
  · rw [h]; exact setCat_dbPerm hperm

theorem catStep_menu {S : List String} {db : MealDB} {c : Cat}
    {hist : List String} {st : AttState} {r : RSrc} {p : Cat × MealItem}
    (hp : p ∈ (catStep S db c hist st r).1.menu) :
    p ∈ st.menu ∨ (p.1 = c ∧ p.2 ∈ getCat db c) := by
  rcases catStep_char S db c hist st r with h | ⟨opts, r2, hperm, h | ⟨s, hs, h⟩⟩
  · rw [h] at hp; exact Or.inl hp
  · rw [h] at hp; exact Or.inl hp
  · rw [h] at hp
    rcases List.mem_append.mp hp with h1 | h1
    · exact Or.inl h1
    · have hps : p = (c, s) := by simpa using h1
      refine Or.inr ⟨by rw [hps], ?_⟩
      rw [hps]
      exact hperm.mem_iff.mp hs

theorem catStep_ing {S : List String} {db : MealDB} {c : Cat}
    {hist : List String} {st : AttState} {r : RSrc} {x : String}
    (hx : x ∈ (catStep S db c hist st r).1.ing) :
    x ∈ st.ing ∨ x ∉ S := by
  rcases catStep_char S db c hist st r with h | ⟨opts, r2, _, h | ⟨s, _, h⟩⟩
  · rw [h] at hx; exact Or.inl hx
  · rw [h] at hx; exact Or.inl hx
  · rw [h] at hx
    rcases List.mem_append.mp hx with h1 | h1
    · exact Or.inl h1
    · exact Or.inr (mem_critical h1)

theorem catStep_score {S : List String} {db : MealDB} {c : Cat}
    {hist : List String} {st : AttState} {r : RSrc}
    (h : st.score = menuScore st.menu) :
    (catStep S db c hist st r).1.score = menuScore (catStep S db c hist st r).1.menu := by
  rcases catStep_char S db c hist st r with he | ⟨opts, r2, _, he | ⟨s, _, he⟩⟩
  · rw [he]; exact h
  · rw [he]; exact h
  · rw [he]
    simp [menuScore, h]

/-! ## Lifting the invariants through one attempt -/

theorem runAttemptGo_dbPerm (S hist : List String) :
    ∀ (cs : List Cat) (db : MealDB) (st : AttState) (r : RSrc),
      DbPerm (runAttemptGo S hist cs db st r).2.1 db
  | [], db, _, _ => DbPerm.rfl db
  | c :: cs, db, st, r =>
    DbPerm.trans
      (runAttemptGo_dbPerm S hist cs (catStep S db c hist st r).2.1
        (catStep S db c hist st r).1 (catStep S db c hist st r).2.2)
      (catStep_dbPerm S db c hist st r)

theorem runAttemptGo_menu (S hist : List String) :
    ∀ (cs : List Cat) (db : MealDB) (st : AttState) (r : RSrc) (p : Cat × MealItem),
      p ∈ (runAttemptGo S hist cs db st r).1.menu →
      p ∈ st.menu ∨ p.2 ∈ getCat db p.1
  | [], _, _, _, _, hp => Or.inl hp
  | c :: cs, db, st, r, p, hp => by
    rcases runAttemptGo_menu S hist cs (catStep S db c hist st r).2.1
        (catStep S db c hist st r).1 (catStep S db c hist st r).2.2 p hp with h | h
    · rcases catStep_menu h with h1 | ⟨h1, h2⟩
      · exact Or.inl h1
      · right; rw [h1]; exact h2
    · right
      exact ((catStep_dbPerm S db c hist st r) p.1).mem_iff.mp h

theorem runAttemptGo_ing (S hist : List String) :
    ∀ (cs : List Cat) (db : MealDB) (st : AttState) (r : RSrc) (x : String),
      x ∈ (runAttemptGo S hist cs db st r).1.ing →
      x ∈ st.ing ∨ x ∉ S
  | [], _, _, _, _, hx => Or.inl hx
  | c :: cs, db, st, r, x, hx => by
    rcases runAttemptGo_ing S hist cs (catStep S db c hist st r).2.1
        (catStep S db c hist st r).1 (catStep S db c hist st r).2.2 x hx with h | h
    · exact catStep_ing h
    · exact Or.inr h

theorem runAttemptGo_score (S hist : List String) :
    ∀ (cs : List Cat) (db : MealDB) (st : AttState) (r : RSrc),
      st.score = menuScore st.menu →
      (runAttemptGo S hist cs db st r).1.score =
        menuScore (runAttemptGo S hist cs db st r).1.menu
  | [], _, _, _, h => h
  | c :: cs, db, st, r, h =>
    runAttemptGo_score S hist cs (catStep S db c hist st r).2.1
      (catStep S db c hist st r).1 (catStep S db c hist st r).2.2
      (catStep_score h)

/-! ## Lifting the invariants through the bounded retry loop -/

theorem dayGo_dbPerm (S : List String) :
    ∀ (fuel : Nat) (db : MealDB) (hist : List String) (r : RSrc),
      DbPerm (dayGo S fuel db hist r).dbOut db
  | 0, db, _, _ => DbPerm.rfl db
  | 1, db, hist, r => by
    unfold dayGo
    dsimp only
    split
    · exact runAttemptGo_dbPerm S hist catsList db ⟨[], [], 0⟩ r
    · exact runAttemptGo_dbPerm S hist catsList db ⟨[], [], 0⟩ r
  | m + 2, db, hist, r => by
    unfold dayGo
    dsimp only
    split
    · exact runAttemptGo_dbPerm S hist catsList db ⟨[], [], 0⟩ r
    · exact DbPerm.trans
        (dayGo_dbPerm S (m + 1) (runAttempt S db hist r).2.1 hist
          (runAttempt S db hist r).2.2)
        (runAttemptGo_dbPerm S hist catsList db ⟨[], [], 0⟩ r)

theorem dayGo_menu (S : List String) :
    ∀ (fuel : Nat) (db : MealDB) (hist : List String) (r : RSrc) (p : Cat × MealItem),
      p ∈ (dayGo S fuel db hist r).menu → p.2 ∈ getCat db p.1
  | 0, _, _, _, _, hp => absurd hp (List.not_mem_nil _)
  | 1, db, hist, r, p, hp => by
    unfold dayGo at hp
    dsimp only at hp
    split at hp
    all_goals
      rcases runAttemptGo_menu S hist catsList db ⟨[], [], 0⟩ r p hp with h | h
      · exact absurd h (List.not_mem_nil _)
      · exact h
  | m + 2, db, hist, r, p, hp => by
    unfold dayGo at hp
    dsimp only at hp
    split at hp
    · rcases runAttemptGo_menu S hist catsList db ⟨[], [], 0⟩ r p hp with h | h
      · exact absurd h (List.not_mem_nil _)
      · exact h
    · have h := dayGo_menu S (m + 1) (runAttempt S db hist r).2.1 hist
        (runAttempt S db hist r).2.2 p hp
      exact ((runAttemptGo_dbPerm S hist catsList db ⟨[], [], 0⟩ r) p.1).mem_iff.mp h

theorem dayGo_ing (S : List String) :
    ∀ (fuel : Nat) (db : MealDB) (hist : List String) (r : RSrc) (x : String),
      x ∈ (dayGo S fuel db hist r).ings → x ∉ S
  | 0, _, _, _, _, hx => absurd hx (List.not_mem_nil _)
  | 1, db, hist, r, x, hx => by
    unfold dayGo at hx
    dsimp only at hx
    split at hx
    · rcases runAttemptGo_ing S hist catsList db ⟨[], [], 0⟩ r x hx with h | h
      · exact absurd h (List.not_mem_nil _)
      · exact h
    · exact absurd hx (List.not_mem_nil _)
  | m + 2, db, hist, r, x, hx => by
    unfold dayGo at hx
    dsimp only at hx
    split at hx
    · rcases runAttemptGo_ing S hist catsList db ⟨[], [], 0⟩ r x hx with h | h
      · exact absurd h (List.not_mem_nil _)
      · exact h
    · exact dayGo_ing S (m + 1) (runAttempt S db hist r).2.1 hist
        (runAttempt S db hist r).2.2 x hx

theorem dayGo_score (S : List String) :
    ∀ (fuel : Nat) (db : MealDB) (hist : List String) (r : RSrc),
      (dayGo S fuel db hist r).score = menuScore (dayGo S fuel db hist r).menu
  | 0, _, _, _ => by simp [dayGo, menuScore]
  | 1, db, hist, r => by
    unfold dayGo
    dsimp only
    split
    all_goals
      exact runAttemptGo_score S hist catsList db ⟨[], [], 0⟩ r (by simp [menuScore])
  | m + 2, db, hist, r => by
    unfold dayGo
    dsimp only
    split
    · exact runAttemptGo_score S hist catsList db ⟨[], [], 0⟩ r (by simp [menuScore])
    · exact dayGo_score S (m + 1) (runAttempt S db hist r).2.1 hist
        (runAttempt S db hist r).2.2

theorem dayGo_notAccepted (S : List String) :
    ∀ (fuel : Nat) (db : MealDB) (hist : List String) (r : RSrc),
      (dayGo S fuel db hist r).accepted = false → (dayGo S fuel db hist r).ings = []
  | 0, _, _, _, _ => rfl
  | 1, db, hist, r, h => by
    unfold dayGo at h ⊢
    dsimp only at h ⊢
    split at h
    · simp at h
    · next hs => rw [if_neg hs]
  | m + 2, db, hist, r, h => by
    unfold dayGo at h ⊢
    dsimp only at h ⊢
    split at h
    · simp at h
    · next hs =>
      rw [if_neg hs]
      exact dayGo_notAccepted S (m + 1) (runAttempt S db hist r).2.1 hist
        (runAttempt S db hist r).2.2 h

theorem dayGo_tries (S : List String) :
    ∀ (fuel : Nat) (db : MealDB) (hist : List String) (r : RSrc),
      (dayGo S fuel db hist r).tries ≤ fuel
  | 0, _, _, _ => Nat.le.refl
  | 1, db, hist, r => by
    unfold dayGo
    dsimp only
    split
    · exact Nat.le.refl
    · exact Nat.le.refl
  | m + 2, db, hist, r => by
    unfold dayGo
    dsimp only
    split
    · exact Nat.succ_le_succ (Nat.zero_le _)
    · exact Nat.succ_le_succ
        (dayGo_tries S (m + 1) (runAttempt S db hist r).2.1 hist
          (runAttempt S db hist r).2.2)

/-! ## Week-level lemmas -/

theorem weekGo_days (S : List String) :
    ∀ (ds : List String) (db : MealDB) (h : List String) (r : RSrc),
      ((weekGo S ds db h r).1).map (fun dr => dr.row.day) = ds
  | [], _, _, _ => rfl
  | d :: ds, db, h, r => by
    have ih := weekGo_days S ds (buildDay S db h r).dbOut
      (buildDay S db h r).ings (buildDay S db h r).rOut
    simpa [weekGo, mkRow] using ih

theorem weekGo_length (S : List String) (ds : List String) (db : MealDB)
    (h : List String) (r : RSrc) : (weekGo S ds db h r).1.length = ds.length := by
  have hm := congrArg List.length (weekGo_days S ds db h r)
  simpa using hm

theorem weekGo_dbPerm (S : List String) :
    ∀ (ds : List String) (db : MealDB) (h : List String) (r : RSrc),
      DbPerm (weekGo S ds db h r).2.1 db
  | [], db, _, _ => DbPerm.rfl db
  | _ :: ds, db, h, r =>
    DbPerm.trans
      (weekGo_dbPerm S ds (buildDay S db h r).dbOut
        (buildDay S db h r).ings (buildDay S db h r).rOut)
      (dayGo_dbPerm S 50 db h r)

theorem weekGo_tries (S : List String) :
    ∀ (ds : List String) (db : MealDB) (h : List String) (r : RSrc) (i : Nat),
      ((weekGo S ds db h r).1.getD i dayRec0).dayOut.tries ≤ 50
  | [], _, _, _, _ => Nat.zero_le 50
  | _ :: _, db, h, r, 0 => dayGo_tries S 50 db h r
  | _ :: ds, db, h, r, i + 1 =>
    weekGo_tries S ds (buildDay S db h r).dbOut
      (buildDay S db h r).ings (buildDay S db h r).rOut i

theorem rowName_mkRow (d : String) (menu : List (Cat × MealItem))
    (score : Nat) (c : Cat) : rowName (mkRow d menu score) c = nameOf menu c := by
  cases c <;> rfl

theorem nameOf_not_mem {menu : List (Cat × MealItem)} {c : Cat}
    (h : ∀ p ∈ menu, p.1 ≠ c) : nameOf menu c = "-" := by
  unfold nameOf
  have hn : menu.find? (fun p => p.1 == c) = none := by
    apply List.find?_eq_none.mpr
    intro p hp
    simpa using h p hp
  rw [hn]

theorem weekGo_empty (S : List String) :
    ∀ (ds : List String) (db : MealDB) (h : List String) (r : RSrc) (c : Cat),
      getCat db c = [] → ∀ i,
        rowName ((weekGo S ds db h r).1.getD i dayRec0).row c = "-"
  | [], _, _, _, c, _, _ => by cases c <;> rfl
  | d :: ds, db, h, r, c, hc, 0 => by
    show rowName (mkRow d (buildDay S db h r).menu (buildDay S db h r).score) c = "-"
    rw [rowName_mkRow]
    apply nameOf_not_mem
    intro p hp hpc
    have hm := dayGo_menu S 50 db h r p hp
    rw [hpc, hc] at hm
    exact absurd hm (List.not_mem_nil _)
  | d :: ds, db, h, r, c, hc, i + 1 =>
    weekGo_empty S ds (buildDay S db h r).dbOut (buildDay S db h r).ings
      (buildDay S db h r).rOut c
      (by
        have hperm := dayGo_dbPerm S 50 db h r c
        rw [hc] at hperm
        exact hperm.eq_nil) i

theorem getD_map_row :
    ∀ (l : List DayRec) (i : Nat),
      (l.map (fun dr => dr.row)).getD i rowD = (l.getD i dayRec0).row
  | [], _ => rfl
  | _ :: _, 0 => rfl
  | _ :: l, i + 1 => getD_map_row l i

theorem weekGo_hist0 (S : List String) :
    ∀ (ds : List String) (db : MealDB) (h : List String) (r : RSrc),
      0 < (weekGo S ds db h r).1.length →
      ((weekGo S ds db h r).1.getD 0 dayRec0).histIn = h
  | [], db, h, r, hl => by rw [weekGo_length] at hl; simp at hl
  | _ :: _, _, _, _, _ => rfl

theorem weekGo_chain (S : List String) :
    ∀ (ds : List String) (db : MealDB) (h : List String) (r : RSrc) (i : Nat),
      i + 1 < (weekGo S ds db h r).1.length →
      ((weekGo S ds db h r).1.getD (i + 1) dayRec0).histIn =
        ((weekGo S ds db h r).1.getD i dayRec0).dayOut.ings
  | [], db, h, r, i, hl => by rw [weekGo_length] at hl; simp at hl
  | d :: ds, db, h, r, 0, hl => by
    have hl2 : 0 < (weekGo S ds (buildDay S db h r).dbOut
        (buildDay S db h r).ings (buildDay S db h r).rOut).1.length := by
      rw [weekGo_length] at hl ⊢
      simpa using Nat.lt_of_succ_lt_succ hl
    exact weekGo_hist0 S ds (buildDay S db h r).dbOut
      (buildDay S db h r).ings (buildDay S db h r).rOut hl2
  | d :: ds, db, h, r, i + 1, hl => by
    have hl2 : i + 1 < (weekGo S ds (buildDay S db h r).dbOut
        (buildDay S db h r).ings (buildDay S db h r).rOut).1.length := by
      rw [weekGo_length] at hl ⊢
      simpa using Nat.lt_of_succ_lt_succ hl
    exact weekGo_chain S ds (buildDay S db h r).dbOut
      (buildDay S db h r).ings (buildDay S db h r).rOut i hl2

/-! ## Scan lemmas -/

theorem scanSteps_le (S : List String) :
    ∀ (opts : List MealItem) (t h : List String),
      scanSteps S opts t h ≤ opts.length
  | [], _, _ => Nat.le.refl
  | o :: os, t, h => by
    unfold scanSteps
    split
    · simp
    · have := scanSteps_le S os t h
      simp only [List.length_cons]
      omega

theorem selectScan_none_scanSteps (S : List String) :
    ∀ (opts : List MealItem) (t h : List String),
      selectScan S opts t h = none → scanSteps S opts t h = opts.length
  | [], _, _, _ => rfl
  | o :: os, t, h, hn => by
    unfold selectScan at hn
    cases hacc : scanAccept S o t h with
    | true => rw [List.find?_cons_of_pos os hacc] at hn; exact absurd hn (by simp)
    | false =>
      rw [List.find?_cons_of_neg os (by simp [hacc])] at hn
      unfold scanSteps
      rw [if_neg (by simp [hacc])]
      have ih := selectScan_none_scanSteps S os t h hn
      simp only [List.length_cons, ih]
      omega

theorem find?_exists {α : Type} (p : α → Bool) :
    ∀ (l : List α), (∃ o, o ∈ l ∧ p o = true) →
      ∃ sel, l.find? p = some sel ∧ p sel = true
  | [], h => absurd h (by simp)
  | a :: l, h => by
    cases hpa : p a with
    | true => exact ⟨a, List.find?_cons_of_pos l hpa, hpa⟩
    | false =>
      obtain ⟨o, ho, hpo⟩ := h
      rcases List.mem_cons.mp ho with he | ho2
      · rw [he, hpa] at hpo; exact absurd hpo (by simp)
      · obtain ⟨sel, hsel, hps⟩ := find?_exists p l ⟨o, ho2, hpo⟩
        exact ⟨sel, by rw [List.find?_cons_of_neg l (by simp [hpa])]; exact hsel, hps⟩

/-! ## Everything depends on the staple set only through `critical` -/

theorem scanAccept_congr (S1 S2 : List String) (o : MealItem)
    (t hist : List String) (h : critical S1 o = critical S2 o) :
    scanAccept S1 o t hist = scanAccept S2 o t hist := by
  unfold scanAccept
  rw [h]

theorem find?_congr {α : Type} (p q : α → Bool) :
    ∀ (l : List α), (∀ a ∈ l, p a = q a) → l.find? p = l.find? q
  | [], _ => rfl
  | a :: l, h => by
    have ha := h a (by simp)
    cases hq : q a with
    | true =>
      rw [List.find?_cons_of_pos l (ha.trans hq), List.find?_cons_of_pos l hq]
    | false =>
      rw [List.find?_cons_of_neg l (by simp [ha, hq]),
        List.find?_cons_of_neg l (by simp [hq])]
      exact find?_congr p q l (fun a2 ha2 => h a2 (by simp [ha2]))

theorem selectScan_congr (S1 S2 : List String) (opts : List MealItem)
    (t hist : List String) (h : ∀ o ∈ opts, critical S1 o = critical S2 o) :
    selectScan S1 opts t hist = selectScan S2 opts t hist :=
  find?_congr _ _ opts (fun o ho => scanAccept_congr S1 S2 o t hist (h o ho))

theorem catStep_congr (S1 S2 : List String) (db : MealDB) (c : Cat)
    (hist : List String) (st : AttState) (r : RSrc)
    (h : ∀ o ∈ getCat db c, critical S1 o = critical S2 o) :
    catStep S1 db c hist st r = catStep S2 db c hist st r := by
  unfold catStep
  dsimp only
  split
  · rfl
  · have hsh : ∀ o ∈ (shuffle (getCat db c) r).1, critical S1 o = critical S2 o :=
      fun o ho => h o (mem_shuffle ho)
    rw [selectScan_congr S1 S2 (shuffle (getCat db c) r).1 st.ing hist hsh]
    cases hscan : selectScan S2 (shuffle (getCat db c) r).1 st.ing hist with
    | none =>
      dsimp only
      cases hch : (choiceR (shuffle (getCat db c) r).1 (shuffle (getCat db c) r).2).1 with
      | none => rfl
      | some s =>
        dsimp only
        rw [hsh s (choiceR_mem hch)]
    | some s =>
      dsimp only
      rw [hsh s (List.mem_of_find?_eq_some hscan)]

theorem runAttemptGo_congr (S1 S2 hist : List String) :
    ∀ (cs : List Cat) (db : MealDB) (st : AttState) (r : RSrc),
      (∀ c o, o ∈ getCat db c → critical S1 o = critical S2 o) →
      runAttemptGo S1 hist cs db st r = runAttemptGo S2 hist cs db st r
  | [], _, _, _, _ => rfl
  | c :: cs, db, st, r, h => by
    have hstep := catStep_congr S1 S2 db c hist st r (h c)
    show runAttemptGo S1 hist cs (catStep S1 db c hist st r).2.1
        (catStep S1 db c hist st r).1 (catStep S1 db c hist st r).2.2 =
      runAttemptGo S2 hist cs (catStep S2 db c hist st r).2.1
        (catStep S2 db c hist st r).1 (catStep S2 db c hist st r).2.2
    rw [hstep]
    exact runAttemptGo_congr S1 S2 hist cs (catStep S2 db c hist st r).2.1
      (catStep S2 db c hist st r).1 (catStep S2 db c hist st r).2.2
      (fun c2 o ho =>
        h c2 o (((catStep_dbPerm S2 db c hist st r) c2).mem_iff.mp ho))

theorem dayGo_congr (S1 S2 : List String) :
    ∀ (fuel : Nat) (db : MealDB) (hist : List String) (r : RSrc),
      (∀ c o, o ∈ getCat db c → critical S1 o = critical S2 o) →
      dayGo S1 fuel db hist r = dayGo S2 fuel db hist r
  | 0, _, _, _, _ => rfl
  | 1, db, hist, r, h => by
    have hatt : runAttempt S1 db hist r = runAttempt S2 db hist r :=
      runAttemptGo_congr S1 S2 hist catsList db ⟨[], [], 0⟩ r h
    unfold dayGo
    dsimp only
    rw [hatt]
  | m + 2, db, hist, r, h => by
    have hatt : runAttempt S1 db hist r = runAttempt S2 db hist r :=
      runAttemptGo_congr S1 S2 hist catsList db ⟨[], [], 0⟩ r h
    have hrec := dayGo_congr S1 S2 (m + 1) (runAttempt S2 db hist r).2.1 hist
      (runAttempt S2 db hist r).2.2
      (fun c o ho =>
        h c o (((runAttemptGo_dbPerm S2 hist catsList db ⟨[], [], 0⟩ r) c).mem_iff.mp ho))
    unfold dayGo
    dsimp only
    rw [hatt, hrec]

theorem weekGo_congr (S1 S2 : List String) :
    ∀ (ds : List String) (db : MealDB) (h : List String) (r : RSrc),
      (∀ c o, o ∈ getCat db c → critical S1 o = critical S2 o) →
      weekGo S1 ds db h r = weekGo S2 ds db h r
  | [], _, _, _, _ => rfl
  | d :: ds, db, h, r, hcr => by
    have hday : buildDay S1 db h r = buildDay S2 db h r :=
      dayGo_congr S1 S2 50 db h r hcr
    have hrec := weekGo_congr S1 S2 ds (buildDay S2 db h r).dbOut
      (buildDay S2 db h r).ings (buildDay S2 db h r).rOut
      (fun c o ho =>
        hcr c o (((dayGo_dbPerm S2 50 db h r) c).mem_iff.mp ho))
    unfold weekGo
    dsimp only
    rw [hday, hrec]

theorem critical_cons_not_mem (t : String) (S : List String) (it : MealItem)
    (h : t ∉ it.ingredients) : critical (t :: S) it = critical S it := by
  unfold critical
  apply List.filter_congr
  intro x hx
  have hf : (t == x) = false := by
    apply beq_eq_false_iff_ne.mpr
    intro he
    exact h (he ▸ hx)
  simp [memS, hf]

theorem memS_erase (x t : String) (h : x ≠ t) :
    ∀ S : List String, memS x (S.erase t) = memS x S
  | [] => rfl
  | y :: S => by
    rw [List.erase_cons]
    split
    · next hyt =>
      have hy : y = t := by simpa using hyt
      subst hy
      have hf : (y == x) = false := by
        apply beq_eq_false_iff_ne.mpr
        intro he
        exact h (he.symm)
      simp [memS, hf]
    · simp [memS, memS_erase x t h S]

theorem critical_erase_not_mem (t : String) (S : List String) (it : MealItem)
    (h : t ∉ it.ingredients) : critical (S.erase t) it = critical S it := by
  unfold critical
  apply List.filter_congr
  intro x hx
  have hxt : x ≠ t := fun he => h (he ▸ hx)
  rw [memS_erase x t hxt S]

theorem mem_getCat_allItems {db : MealDB} {c : Cat} {it : MealItem}
    (h : it ∈ getCat db c) : it ∈ allItems db := by
  cases c <;> simp [getCat, allItems] at h ⊢ <;> tauto

set_option maxHeartbeats 800000

set_option maxRecDepth 8000

/-! ## Claim C1 -/

/-- C1, counterexample.  On `db6` with the all-zero random source, at the
Breakfast draw of day Mon the accumulated critical set is `[]` (Breakfast
is the first category processed) and the candidate `itAhp` has critical
ingredients disjoint from it, so the claim's hypothesis holds at that
draw; yet the item selected for Breakfast (`itAhp`) has critical
ingredients that are NOT disjoint from those of the item selected for
Lunch the same day (`itChp`, chosen by the `random.choice` fallback after
its scan found no non-colliding candidate).  This falsifies C1 as
stated. -/
theorem C1_counterexample :
    ((gsRecs db6 rZ).getD 0 dayRec0).row.breakfastName = "A"
    ∧ ((gsRecs db6 rZ).getD 0 dayRec0).row.lunchName = "C"
    ∧ itAhp ∈ getCat db6 Cat.Breakfast
    ∧ disjointL (critical STAPLES itAhp) [] = true
    ∧ disjointL (critical STAPLES itAhp) (critical STAPLES itChp) = false := by
  decide

/-- C1, amended.  If at the moment of a category's draw at least one
candidate passes the full scan test (within-day disjointness AND the
cross-day High-protein rule), then the scan selects an item that passes
the full test; in particular the selected item's critical ingredients
are disjoint from the day's already-accumulated critical-ingredient set
at that draw (hence from every item selected earlier that day).
Disjointness from items selected later that day is not guaranteed, and
a within-day-disjoint candidate alone does not suffice because the scan
may still reject it by the cross-day High-protein rule. -/
theorem C1_amended_scan_disjoint :
    ∀ (S : List String) (opts : List MealItem) (t h : List String),
      (∃ o, o ∈ opts ∧ scanAccept S o t h = true) →
      ∃ sel, selectScan S opts t h = some sel ∧ scanAccept S sel t h = true
        ∧ disjointL (critical S sel) t = true := by
  intro S opts t h hex
  obtain ⟨sel, hfind, hacc⟩ := find?_exists (fun o => scanAccept S o t h) opts hex
  refine ⟨sel, hfind, hacc, ?_⟩
  have hacc2 : scanAccept S sel t h = true := hacc
  unfold scanAccept at hacc2
  rw [Bool.and_eq_true] at hacc2
  exact hacc2.1

/-- C1, witness for the amended theorem. -/
theorem C1_amended_witness :
    ∃ sel, selectScan STAPLES [itA] [] [] = some sel
      ∧ scanAccept STAPLES sel [] [] = true
      ∧ disjointL (critical STAPLES sel) [] = true :=
  C1_amended_scan_disjoint STAPLES [itA] [] [] ⟨itA, by decide, by decide⟩

/-! ## Claim C2 -/

/-- C2, counterexample.  On `db4` (Breakfast catalog of size 2:
`itA2`, `itB2`) with a random source making both shuffles the identity,
the first two Breakfast draws of the week both select `itA2`, so within
one "exhaustion cycle" of length 2 one item is drawn twice and the
other never — even though no collision forced the reuse: `itB2` would
itself have passed the full scan test at the day-2 draw (its critical
ingredients are disjoint both from the empty accumulated set and from
the first recorded ingredient set).  The code keeps no deck: nothing is
ever removed from a category list, so no once-before-repeat guarantee
exists. -/
theorem C2_counterexample :
    ((gsRecs db4 rS).getD 0 dayRec0).row.breakfastName = "A2"
    ∧ ((gsRecs db4 rS).getD 1 dayRec0).row.breakfastName = "A2"
    ∧ (getCat db4 Cat.Breakfast).length = 2
    ∧ itB2 ∈ getCat db4 Cat.Breakfast
    ∧ itB2.name = "B2"
    ∧ scanAccept STAPLES itB2 [] ((gsRecs db4 rS).getD 0 dayRec0).dayOut.ings = true := by
  decide

/-- C2, amended.  Selection is with replacement: every draw for a
category shuffles and scans the full (never shrunk) catalog list for
that category, so the only per-draw guarantee is that each selected
item is an element of the category's full catalog; the same item may be
selected on consecutive days before other items are ever used. -/
theorem C2_amended_draws_from_full_catalog :
    ∀ (db : MealDB) (hist : List String) (r : RSrc) (c : Cat) (it : MealItem),
      (c, it) ∈ (buildDay STAPLES db hist r).menu → it ∈ getCat db c := by
  intro db hist r c it h
  exact dayGo_menu STAPLES 50 db hist r (c, it) h

/-- C2, witness for the amended theorem. -/
theorem C2_amended_witness : itA2 ∈ getCat db4 Cat.Breakfast :=
  C2_amended_draws_from_full_catalog db4 [] rS Cat.Breakfast itA2 (by decide)

/-! ## Claim C3 -/

/-- C3, counterexample.  On `db3` with the all-zero random source, day
Mon selects the Breakfast item `itLow` whose protein tier is `"Low"`
(below the `"Medium"` threshold) in a non-Snack category, yet the day's
reported protein score equals exactly the bare sum of the selected
items' mapped tier values (7 = 1+3+3): no booster contribution is ever
added, contradicting the claim that a booster is applied exactly when
the category is not Snack and the base protein is below the threshold. -/
theorem C3_counterexample :
    ((gsRecs db3 rZ).getD 0 dayRec0).dayOut.score = 7
    ∧ menuScore ((gsRecs db3 rZ).getD 0 dayRec0).dayOut.menu = 7
    ∧ (Cat.Breakfast, itLow) ∈ ((gsRecs db3 rZ).getD 0 dayRec0).dayOut.menu
    ∧ Cat.Breakfast ≠ Cat.Snack
    ∧ itLow.protein = "Low"
    ∧ proteinMap itLow.protein < proteinMap "Medium" := by
  decide

/-- C3, amended.  For every completed day, the reported protein score
equals the sum over the selected items of `protein_map` applied to each
item's protein tier (High ↦ 3, Medium ↦ 2, Low ↦ 1, anything else ↦ 1);
no booster contribution exists anywhere in `generate_schedule`. -/
theorem C3_amended_score_is_tier_sum :
    ∀ (db : MealDB) (hist : List String) (r : RSrc),
      (buildDay STAPLES db hist r).score =
        menuScore (buildDay STAPLES db hist r).menu := by
  intro db hist r
  exact dayGo_score STAPLES 50 db hist r

/-! ## Claim C4 -/

/-- C4, confirmed.  For every catalog (including catalogs with empty
categories) and every random source, `generate_schedule` returns exactly
seven rows labeled Mon..Sun in that order, and an empty category
degrades to the `"-"` placeholder in every row's slot for it.  The
embedding is total, mirroring the code's absorption of all non-fatal
conditions (empty slot via `.get(...)` defaults, `random.choice`
fallback, zero score contribution): no exception escapes the solver. -/
theorem C4_seven_labeled_rows :
    ∀ (db : MealDB) (r : RSrc),
      (generate_schedule db r).map (fun row => row.day) = weekDays
      ∧ (generate_schedule db r).length = 7
      ∧ (∀ c, getCat db c = [] → ∀ i,
          rowName ((generate_schedule db r).getD i rowD) c = "-") := by
  intro db r
  refine ⟨?_, ?_, ?_⟩
  · show ((gsRecs db r).map (fun dr => dr.row)).map (fun row => row.day) = weekDays
    rw [List.map_map]
    exact weekGo_days STAPLES weekDays db [] r
  · show ((gsRecs db r).map (fun dr => dr.row)).length = 7
    rw [List.length_map]
    show (weekGo STAPLES weekDays db [] r).1.length = 7
    rw [weekGo_length]
    rfl
  · intro c hc i
    show rowName (((gsRecs db r).map (fun dr => dr.row)).getD i rowD) c = "-"
    rw [getD_map_row]
    exact weekGo_empty STAPLES weekDays db [] r c hc i

/-- C4, witness (the empty-category conjunct has a hypothesis). -/
theorem C4_witness :
    rowName ((generate_schedule db2 rZ).getD 0 rowD) Cat.Dinner = "-" :=
  (C4_seven_labeled_rows db2 rZ).2.2 Cat.Dinner rfl 0

/-! ## Claim C5 -/

/-- C5, confirmed.  (1) For a candidate that passes the within-day check
(critical ingredients disjoint from today's accumulated set) but whose
critical ingredients collide with the history set, the scan accepts it
if and only if its protein tier is not `"High"` — so a colliding Medium
or Low item passes and a colliding High item is rejected.  (2) The
history set a day is given is exactly the recorded ingredient set of
the immediately preceding day, never an accumulation over earlier
days. -/
theorem C5_cross_day_rule :
    (∀ (o : MealItem) (t h : List String),
        disjointL (critical STAPLES o) t = true →
        disjointL (critical STAPLES o) h = false →
        (scanAccept STAPLES o t h = true ↔ o.protein ≠ "High"))
    ∧ (∀ (db : MealDB) (r : RSrc) (i : Nat),
        i + 1 < (gsRecs db r).length →
        ((gsRecs db r).getD (i + 1) dayRec0).histIn =
          ((gsRecs db r).getD i dayRec0).dayOut.ings) := by
  constructor
  · intro o t h h1 h2
    unfold scanAccept
    rw [h1, h2]
    simp
  · intro db r i hl
    exact weekGo_chain STAPLES weekDays db [] r i hl

/-- C5, witness. -/
theorem C5_witness :
    (scanAccept STAPLES itA2 [] ["almond"] = true ↔ itA2.protein ≠ "High")
    ∧ ((gsRecs db4 rS).getD 1 dayRec0).histIn =
        ((gsRecs db4 rS).getD 0 dayRec0).dayOut.ings := by
  constructor
  · exact C5_cross_day_rule.1 itA2 [] ["almond"] (by decide) (by decide)
  · exact C5_cross_day_rule.2 db4 rS 0 (by decide)

/-! ## Claim C6 -/

/-- C6, confirmed.  (1) No staple token ever enters a day's recorded
critical-ingredient tracking set (only `ingredients - STAPLES` is ever
recorded).  (2) An ingredient belonging to `STAPLES` never influences
the scan's accept/reject decision: adding a staple token to a
candidate's ingredient list leaves the scan test unchanged. -/
theorem C6_staples_never_tracked_never_block :
    (∀ (db : MealDB) (hist : List String) (r : RSrc) (x : String),
        x ∈ (buildDay STAPLES db hist r).ings → x ∉ STAPLES)
    ∧ (∀ (s : String) (o : MealItem) (t h : List String),
        s ∈ STAPLES →
        scanAccept STAPLES ⟨o.name, s :: o.ingredients, o.protein⟩ t h =
          scanAccept STAPLES o t h) := by
  constructor
  · intro db hist r x hx
    exact dayGo_ing STAPLES 50 db hist r x hx
  · intro s o t h hs
    have hms : memS s STAPLES = true := (memS_iff s STAPLES).mpr hs
    have hcrit : critical STAPLES ⟨o.name, s :: o.ingredients, o.protein⟩ =
        critical STAPLES o := by
      unfold critical
      simp [List.filter_cons, hms]
    unfold scanAccept
    rw [hcrit]

/-- C6, witness. -/
theorem C6_witness :
    ("lentil" ∉ STAPLES)
    ∧ scanAccept STAPLES ⟨itA.name, "rice" :: itA.ingredients, itA.protein⟩ [] [] =
        scanAccept STAPLES itA [] [] := by
  constructor
  · exact C6_staples_never_tracked_never_block.1 db3 [] rZ "lentil" (by decide)
  · exact C6_staples_never_tracked_never_block.2 "rice" itA [] [] (by decide)

/-! ## Claim C7 -/

/-- C7, confirmed.  For any token `t` appearing in no catalog item's
ingredient list, running the planner with `t` added to the staple set,
or with `t` erased from it, produces exactly the same output as running
it with the unmodified staple set — same rows, same final catalog
state, same final random state — for every catalog and every fixed
random source.  (`runWeek staples` is the planning run with an explicit
staple set; `generate_schedule` is its row projection at `STAPLES`.) -/
theorem C7_staple_idempotence :
    ∀ (t : String) (db : MealDB) (r : RSrc),
      (∀ it ∈ allItems db, t ∉ it.ingredients) →
      runWeek (t :: STAPLES) db r = runWeek STAPLES db r
      ∧ runWeek (STAPLES.erase t) db r = runWeek STAPLES db r := by
  intro t db r h
  constructor
  · exact weekGo_congr (t :: STAPLES) STAPLES weekDays db [] r
      (fun c o ho => critical_cons_not_mem t STAPLES o (h o (mem_getCat_allItems ho)))
  · exact weekGo_congr (STAPLES.erase t) STAPLES weekDays db [] r
      (fun c o ho => critical_erase_not_mem t STAPLES o (h o (mem_getCat_allItems ho)))

/-- C7, witness. -/
theorem C7_witness :
    runWeek ("quinoa" :: STAPLES) db3 rZ = runWeek STAPLES db3 rZ :=
  (C7_staple_idempotence "quinoa" db3 rZ (by decide)).1

/-! ## Claim C8 -/

/-- C8, confirmed.  Every loop of the solver is finitely bounded: the
run produces exactly 7 day records (days loop), every day runs at most
50 attempts (`while attempts < 50`), each attempt iterates exactly the
4 categories, and the candidate scan examines at most the category
list's current length.  The embedding is total, so the run terminates
for every input. -/
theorem C8_bounded_loops :
    ∀ (db : MealDB) (r : RSrc),
      (gsRecs db r).length = 7
      ∧ (∀ i, ((gsRecs db r).getD i dayRec0).dayOut.tries ≤ 50)
      ∧ (∀ (S : List String) (opts : List MealItem) (t h : List String),
          scanSteps S opts t h ≤ opts.length)
      ∧ catsList.length = 4 := by
  intro db r
  refine ⟨?_, ?_, ?_, rfl⟩
  · show (weekGo STAPLES weekDays db [] r).1.length = 7
    rw [weekGo_length]
    rfl
  · intro i
    exact weekGo_tries STAPLES weekDays db [] r i
  · exact fun S opts t h => scanSteps_le S opts t h

/-! ## Claim C9 -/

/-- C9, counterexample.  `random.shuffle(options)` mutates the list held
by the catalog dict in place; on `db5` with the all-zero random source
the run performs an odd number of order-reversing shuffles of the
Breakfast list, so after the run the catalog's Breakfast sequence is
`[itBH, itAH]`, not the original `[itAH, itBH]`: the catalog is not
read-only. -/
theorem C9_counterexample :
    getCat (finalDb STAPLES db5 rZ) Cat.Breakfast ≠ getCat db5 Cat.Breakfast
    ∧ getCat (finalDb STAPLES db5 rZ) Cat.Breakfast = [itBH, itAH] := by
  decide

/-- C9, amended.  `generate_schedule` may reorder each category's item
sequence in place (every draw shuffles it), but it preserves the
catalog mapping's categories and each category's items as a multiset:
after any run, each category's final list is a permutation of its input
list. -/
theorem C9_amended_catalog_multiset_preserved :
    ∀ (db : MealDB) (r : RSrc) (c : Cat),
      List.Perm (getCat (finalDb STAPLES db r) c) (getCat db c) := by
  intro db r c
  exact weekGo_dbPerm STAPLES weekDays db [] r c

/-! ## Claim C10 -/

/-- C10, confirmed.  (1) When no attempt of a day reaches the acceptance
score (so the last-attempt fallback is taken), the day's recorded
ingredient set — which is exactly what is threaded forward as the next
day's history — is the empty set (`daily_ingredients` is only assigned
on acceptance).  (2) Against an empty history set the scan test
degenerates to the within-day rule alone: the cross-day check passes
vacuously for every candidate. -/
theorem C10_fallback_empty_history :
    (∀ (db : MealDB) (hist : List String) (r : RSrc),
        (buildDay STAPLES db hist r).accepted = false →
        (buildDay STAPLES db hist r).ings = [])
    ∧ (∀ (S : List String) (o : MealItem) (t : List String),
        scanAccept S o t [] = disjointL (critical S o) t) := by
  constructor
  · intro db hist r h
    exact dayGo_notAccepted STAPLES 50 db hist r h
  · intro S o t
    unfold scanAccept
    rw [disjointL_nil_right]
    simp

/-- Single-attempt evaluation on `db2`: the only lunch option collides
with the breakfast pick, the fallback takes it anyway, and the attempt
scores 2+2 = 4, below the acceptance bound; catalog and random source
are left unchanged, so every one of the 50 attempts behaves alike. -/
theorem db2_attempt_eq :
    runAttempt STAPLES db2 [] rZ =
      (⟨[(Cat.Breakfast, itA), (Cat.Lunch, itC)], ["paneer", "paneer", "dal"], 4⟩,
        db2, rZ) := by
  decide

theorem db2_dayGo_not_accepted :
    ∀ k, (dayGo STAPLES k db2 [] rZ).accepted = false
  | 0 => rfl
  | k + 1 => by
    unfold dayGo
    dsimp only
    rw [db2_attempt_eq]
    rw [if_neg (by decide)]
    cases k with
    | zero => rfl
    | succ m =>
      dsimp only
      exact db2_dayGo_not_accepted (m + 1)

/-- C10, witness. -/
theorem C10_witness : (buildDay STAPLES db2 [] rZ).ings = [] :=
  C10_fallback_empty_history.1 db2 [] rZ (db2_dayGo_not_accepted 50)

end FoodPlanner
